import Mathlib

/-!
Shallow embedding of the taggo module-version checker.

Sources embedded here:
- the `taggo` package: `Check`, `CheckAll`, `detectDefaultBranch`,
  `decomposeModpath` (src/unnamed/part_000), `gitRefs` (src/git.go),
  `Result` (the taggo `Result` struct);
- the command layer: `main`, `exitErr`, `lcm`/`gcd`, `maybeAddTag`
  (src/cmd/taggo/main.go);
- the ordering and validation rules of `golang.org/x/mod/semver`
  (`IsValid`, `Compare`, `Sort`) that `Check` relies on, modelled over
  parsed version data.

Go maps are modelled as association lists; where Go's map iteration
order matters (the fallback loop over remotes in `Check`) the list
order of the model stands for the iteration order of one run.
Machine integers are modelled as `Nat` (all counters in scope are
non-negative and far from overflow).
-/

namespace Taggo

/-! ### Semantic versions, after golang.org/x/mod/semver

`semver.IsValid` / `semver.Compare` parse a string `vMAJOR[.MINOR[.PATCH]]`
with optional `-prerelease` and `+build` parts.  Precedence compares
major, minor, patch numerically, then the prerelease: a release sorts
above every prerelease; prerelease identifier lists compare pointwise,
numeric identifiers before alphanumeric ones, numeric ones by value
(they carry no leading zeros), alphanumeric ones lexically by ASCII,
and a strict prefix sorts first.  Build metadata is ignored. -/

/-- Numeric value of a decimal digit character. -/
def digitVal (c : Char) : Nat := c.toNat - 48

/-- Value of a list of decimal digit characters. -/
def natOfDigits (ds : List Char) : Nat := ds.foldl (fun a c => a * 10 + digitVal c) 0

/-- Model of x/mod/semver `parseInt`: a nonempty run of decimal digits with
no leading zero (unless the number is exactly "0"), returning its value and
the unconsumed remainder. -/
def parseNumCs (cs : List Char) : Option (Nat × List Char) :=
  let ds := cs.takeWhile Char.isDigit
  if ds.isEmpty then none
  else if ds.head? == some '0' && ds.length != 1 then none
  else some (natOfDigits ds, cs.drop ds.length)

/-- A prerelease identifier: numeric identifiers sort before alphanumeric
ones, numeric by value, alphanumeric lexically (x/mod/semver
`comparePrerelease`).  Alphanumeric identifiers are kept as character
lists; they are ASCII, so character order coincides with Go's byte
order. -/
abbrev PreId := Nat ⊕ₗ List Char

/-- Model of x/mod/semver `isIdentChar`: ASCII letters, digits, and hyphen. -/
def isIdentChar (c : Char) : Bool := c.isAlpha || c.isDigit || c == '-'

/-- Parse one prerelease identifier (nonempty; all-digit identifiers must
not have a leading zero, mirroring `isBadNum`). -/
def parsePreId (cs : List Char) : Option PreId :=
  if cs.isEmpty then none
  else if cs.all Char.isDigit then
    if decide (1 < cs.length) && cs.head? == some '0' then none
    else some (toLex (Sum.inl (natOfDigits cs)))
  else if cs.all isIdentChar then some (toLex (Sum.inr cs))
  else none

/-- Split a character list on the dot character, keeping empty segments. -/
def splitDots : List Char → List (List Char)
  | [] => [[]]
  | '.' :: rest => [] :: splitDots rest
  | c :: rest =>
    match splitDots rest with
    | g :: gs => (c :: g) :: gs
    | [] => [[c]]

/-- Parse the prerelease part (the characters after the hyphen and before
any plus sign), mirroring x/mod/semver `parsePrerelease`. -/
def parsePre (cs : List Char) : Option (List PreId) :=
  (splitDots cs).mapM parsePreId

/-- Validate build metadata (the characters after the plus sign),
mirroring x/mod/semver `parseBuild`: dot-separated nonempty identifiers. -/
def parseBuildOk (cs : List Char) : Bool :=
  (splitDots cs).all fun g => !g.isEmpty && g.all isIdentChar

/-- A parsed semantic version.  Build metadata is validated but not kept:
it does not participate in precedence. -/
structure SemVer where
  major : Nat
  minor : Nat
  patch : Nat
  pre : List PreId
deriving DecidableEq

/-- Parse the optional `-prerelease` and `+build` tail of a version. -/
def parseExtra (maj mnr pat : Nat) : List Char → Option SemVer
  | [] => some ⟨maj, mnr, pat, []⟩
  | '-' :: rest =>
    let preCs := rest.takeWhile fun c => c != '+'
    match parsePre preCs with
    | none => none
    | some pids =>
      match rest.drop preCs.length with
      | [] => some ⟨maj, mnr, pat, pids⟩
      | '+' :: b => if parseBuildOk b then some ⟨maj, mnr, pat, pids⟩ else none
      | _ => none
  | '+' :: b => if parseBuildOk b then some ⟨maj, mnr, pat, []⟩ else none
  | _ => none

/-- Model of x/mod/semver `parse` (hence of `IsValid`): leading `v`, then
major, optional `.minor`, optional `.patch`, optional prerelease and build. -/
def parseVer (cs : List Char) : Option SemVer :=
  match cs with
  | 'v' :: r0 =>
    match parseNumCs r0 with
    | none => none
    | some (maj, r1) =>
      match r1 with
      | [] => some ⟨maj, 0, 0, []⟩
      | '.' :: r2 =>
        match parseNumCs r2 with
        | none => none
        | some (mnr, r3) =>
          match r3 with
          | [] => some ⟨maj, mnr, 0, []⟩
          | '.' :: r4 =>
            match parseNumCs r4 with
            | none => none
            | some (pat, r5) => parseExtra maj mnr pat r5
          | _ => none
      | _ => none
  | _ => none

/-- Model of `semver.IsValid`. -/
def isValidSemver (s : String) : Bool := (parseVer s.toList).isSome

/-- Whether a (valid) version string has a prerelease part: model of
`semver.Prerelease(v) != ""` (false on invalid strings). -/
def semverPreB (s : String) : Bool :=
  match parseVer s.toList with
  | some sv => !sv.pre.isEmpty
  | none => false

/-- Precedence key of a parsed version: major, minor, patch, then the
prerelease list, with a release (empty prerelease) above every
prerelease (x/mod/semver `Compare`). -/
abbrev SemKey := Nat ×ₗ (Nat ×ₗ (Nat ×ₗ WithTop (List PreId)))

/-- Key of a parsed version. -/
def svKey (sv : SemVer) : SemKey :=
  toLex (sv.major, toLex (sv.minor, toLex (sv.patch,
    if sv.pre.isEmpty then (⊤ : WithTop (List PreId)) else (sv.pre : WithTop (List PreId)))))

/-- Precedence key of a version string; an invalid string sorts below every
valid one and all invalid strings compare equal (`semver.Compare`). -/
def svKeyW (s : String) : WithBot SemKey :=
  match parseVer s.toList with
  | some sv => (svKey sv : WithBot SemKey)
  | none => ⊥

/-- Semantic-version precedence as a relation on strings. -/
def semverPrecLe (a b : String) : Prop := svKeyW a ≤ svKeyW b

/-- Full sort key of `semver.Sort` (via `ByVersion`): precedence first,
ties broken by the raw string (compared as its character list; version
tag names that survive validation are ASCII, so this coincides with
Go's byte order). -/
def verKey (s : String) : WithBot SemKey ×ₗ List Char := toLex (svKeyW s, s.data)

/-- The sorting relation of `semver.Sort`. -/
def vle (a b : String) : Prop := verKey a ≤ verKey b

instance : DecidableRel vle := fun a b => inferInstanceAs (Decidable (verKey a ≤ verKey b))

instance : IsTrans String vle := ⟨fun _ _ _ h1 h2 => le_trans h1 h2⟩

instance : IsTotal String vle := ⟨fun _ _ => le_total _ _⟩

instance : IsAntisymm String vle := ⟨fun a b h1 h2 => by
  have h : verKey a = verKey b := le_antisymm h1 h2
  have h2' : a.data = b.data := congrArg (fun k => (ofLex k).2) h
  cases a; cases b
  exact congrArg String.mk h2'⟩

/-- The latest version of a collection of tag names: model of
`maps.Keys(versions)` followed by `semver.Sort` and taking the last
element (`Check`, src/unnamed/part_000 lines 156-160); the empty string
when there are no names.  `dedup` models the set semantics of map keys. -/
def latestVersionOf (names : List String) : String :=
  match (List.insertionSort vle names.dedup).getLast? with
  | some v => v
  | none => ""

/-! ### The taggo data model and Check pipeline -/

/-- The values of `Result.VersionSuffix` (`VersionSuffixStatus` constants
`VSOK`, `VSMismatch`, `VSMissing`, `VSUnwanted` in result.go). -/
inductive VSStatus
  | ok
  | mismatch
  | missing
  | unwanted
deriving DecidableEq

/-- The answers of the compatibility classifier (`modver.ResultCode`);
`none` is the zero value. -/
inductive ModverCode
  | none
  | patchlevel
  | minor
  | major
deriving DecidableEq

/-- The taggo `Result` struct (result.go), restricted to the fields the
core computes; `ModverResultString` (a display string derived from
`ModverResultCode`) is omitted.  `VersionPrefix` is called
`versionPfx` here. -/
structure Result where
  moduleSubdir : String
  versionPfx : String
  latestVersion : String
  latestMajor : Nat
  latestMinor : Nat
  latestPatch : Nat
  latestVersionIsPrerelease : Bool
  latestVersionUnstable : Bool
  modpath : String
  versionSuffix : VSStatus
  modpathMismatch : Bool
  defaultBranch : String
  latestCommit : String
  latestCommitHasVersionTag : Bool
  latestCommitHasLatestVersion : Bool
  modverResultCode : ModverCode
  newMajor : Nat
  newMinor : Nat
  newPatch : Nat
deriving DecidableEq

/-- A nonempty run of decimal digits with its value and the remainder
(used by the `versionRegex` model; leading zeros are allowed there). -/
def takeDigits1 (cs : List Char) : Option (List Char × List Char) :=
  let ds := cs.takeWhile Char.isDigit
  if ds.isEmpty then none else some (ds, cs.drop ds.length)

/-- Try to match `v([0-9]+)\.([0-9]+)\.([0-9]+)` at the start of the
character list, returning the three captured numbers. -/
def tripleAt (cs : List Char) : Option (Nat × Nat × Nat) :=
  match cs with
  | 'v' :: r0 =>
    match takeDigits1 r0 with
    | none => none
    | some (d1, r1) =>
      match r1 with
      | '.' :: r2 =>
        match takeDigits1 r2 with
        | none => none
        | some (d2, r3) =>
          match r3 with
          | '.' :: r4 =>
            match takeDigits1 r4 with
            | none => none
            | some (d3, _) => some (natOfDigits d1, natOfDigits d2, natOfDigits d3)
          | _ => none
      | _ => none
  | _ => none

/-- Model of `versionRegex.FindStringSubmatch` (leftmost match of
`v([0-9]+)\.([0-9]+)\.([0-9]+)`, src/unnamed/part_000 line 335),
returning the major, minor and patch capture values. -/
def regexTriple : List Char → Option (Nat × Nat × Nat)
  | [] => none
  | c :: cs =>
    match tripleAt (c :: cs) with
    | some t => some t
    | none => regexTriple cs

/-- Model of `decomposeModpath` (src/unnamed/part_000 lines 324-331):
match `/v([1-9][0-9]*)$`; on a match, the base is `modpath[:m[2]]`, the
text before the digit group (so it keeps the trailing `/v`), and the
suffix value is the digit group.  Otherwise the whole path, 0, false. -/
def decomposeModpath (modpath : String) : String × Nat × Bool :=
  let rev := modpath.data.reverse
  let dsRev := rev.takeWhile Char.isDigit
  match dsRev.getLast? with
  | Option.none => (modpath, 0, false)
  | some c0 =>
    if c0 == '0' then (modpath, 0, false)
    else
      match rev.drop dsRev.length with
      | 'v' :: '/' :: _ =>
        (String.mk (rev.drop dsRev.length).reverse, natOfDigits dsRev.reverse, true)
      | _ => (modpath, 0, false)

/-- The version-suffix verdict of `Check` (src/unnamed/part_000 lines
191-207): the Go `switch` tries `case 0, 1` before `case latestMajor`. -/
def suffixStatusOf (hasSfx : Bool) (sfxVer latestMajor : Nat) : VSStatus :=
  if hasSfx then
    if sfxVer == 0 || sfxVer == 1 then VSStatus.unwanted
    else if sfxVer == latestMajor then VSStatus.ok
    else VSStatus.mismatch
  else if latestMajor > 1 then VSStatus.missing
  else VSStatus.ok

/-- Follows the spec's words: the policy table of spec section 4.3,
stated independently of the code, for comparison with
`suffixStatusOf`. -/
def specSuffixVerdict (hasSfx : Bool) (sfxVer latestMajor : Nat) : VSStatus :=
  if !hasSfx then
    if latestMajor ≤ 1 then VSStatus.ok else VSStatus.missing
  else if sfxVer ≤ 1 then VSStatus.unwanted
  else if sfxVer == latestMajor then VSStatus.ok
  else VSStatus.mismatch

/-- Go map read with the zero value for a missing key.  Maps are
association lists; `List.lookup` finds the binding of a key. -/
def mapGet (m : List (String × String)) (k : String) : String := (List.lookup k m).getD ""

/-- Model of `nonDefaultBranchRune` (ASCII approximation of
`unicode.Letter`/`unicode.Digit`; branch names in scope are ASCII). -/
def nonDefaultBranchChar (c : Char) : Bool := !(c.isAlpha || c.isDigit)

/-- The candidate set of `detectDefaultBranch`: names that are keys of
both the remote ref map and the local branch-head map. -/
def candidatesOf (rr heads : List (String × String)) : List String :=
  ((rr.map Prod.fst).filter fun n => (heads.map Prod.fst).contains n).dedup

/-- Model of `detectDefaultBranch` (src/unnamed/part_000 lines 289-314):
try "main", "master", "default" in order, requiring the name to be a
candidate whose remote hash equals its local head hash; otherwise, a
sole candidate with only letter/digit characters and agreeing hashes;
otherwise the empty string. -/
def detectDefaultBranch (rr heads : List (String × String)) : String :=
  let candidates := candidatesOf rr heads
  if candidates.contains "main" && (mapGet rr "main" == mapGet heads "main") then "main"
  else if candidates.contains "master" && (mapGet rr "master" == mapGet heads "master") then
    "master"
  else if candidates.contains "default" && (mapGet rr "default" == mapGet heads "default") then
    "default"
  else
    match candidates with
    | [name] =>
      if name.data.any nonDefaultBranchChar then ""
      else if mapGet rr name == mapGet heads name then name
      else ""
    | _ => ""

/-- The fallback loop of `Check` (src/unnamed/part_000 lines 218-222)
over the remotes map; the list order models the map iteration order of
one run (Go map iteration order is unspecified). -/
def firstDetect : List (String × List (String × String)) → List (String × String) → String
  | [], _ => ""
  | (_, rr) :: rest, heads =>
    let d := detectDefaultBranch rr heads
    if d != "" then d else firstDetect rest heads

/-- Default-branch selection of `Check` (src/unnamed/part_000 lines
216-223): the `origin` remote first, then every remote in iteration
order. -/
def chooseDefaultBranch (remotes : List (String × List (String × String)))
    (heads : List (String × String)) : String :=
  let ob := detectDefaultBranch ((List.lookup "origin" remotes).getD []) heads
  if ob != "" then ob else firstDetect remotes heads

/-- The tip-commit inspection of `Check` (src/unnamed/part_000 lines
226-246): when the default branch has a local head, its hash, whether
it carries the latest version, and whether it carries any version tag. -/
def tipInfoOf (heads versions : List (String × String)) (db lv : String) :
    Option (String × Bool × Bool) :=
  if db == "" then Option.none
  else
    match List.lookup db heads with
    | Option.none => Option.none
    | some lc =>
      let hasLatest := (List.lookup lv versions).getD "" == lc
      some (lc, hasLatest, hasLatest || versions.any fun p => p.2 == lc)

/-- The recommendation switch of `Check` (src/unnamed/part_000 lines
248-284), also counting classifier invocations: when versions exist,
the default branch is known and the tip has no version tag, the
classifier is consulted once and its verdict mapped onto the latest
triple `t`; with no versions the recommendation is (0,1,0); otherwise
the zero triple. -/
def recommendOf (lv db : String) (hasAnyTag pre : Bool) (t : Nat × Nat × Nat)
    (classify : ModverCode) : (Nat × Nat × Nat) × Nat :=
  if lv != "" then
    if db != "" && !hasAnyTag then
      (match classify with
        | ModverCode.major => (t.1 + 1, 0, 0)
        | ModverCode.minor => (t.1, t.2.1 + 1, 0)
        | ModverCode.patchlevel => if !pre then (t.1, t.2.1, t.2.2 + 1) else t
        | ModverCode.none => t, 1)
    else ((0, 0, 0), 0)
  else ((0, 1, 0), 0)

/-- Whether string `s` ends with `sfx` (`strings.HasSuffix`). -/
def endsWithStr (s sfx : String) : Bool := sfx.data.isSuffixOf s.data

/-- The pure tail of `Check` (src/unnamed/part_000 lines 151-286) after
the latest-version triple `t` has been extracted: builds the `Result`
and the classifier invocation count.  Inputs are the classified ref
maps (`heads`, `remotes`, `versions`), the module path from go.mod, and
the classifier's (deterministic) answer; `moduledir` is the normalized
module subdirectory. -/
def checkOk (moduledir : String) (heads : List (String × String))
    (remotes : List (String × List (String × String)))
    (versions : List (String × String)) (modpath : String)
    (classify : ModverCode) (t : Nat × Nat × Nat) : Result × Nat :=
  let vpfx := if moduledir == "" then "" else moduledir ++ "/"
  let lv := latestVersionOf (versions.map Prod.fst)
  let pre := semverPreB lv
  let dm := decomposeModpath modpath
  let db := chooseDefaultBranch remotes heads
  let ti := tipInfoOf heads versions db lv
  let hasAnyTag := (ti.map fun x => x.2.2).getD false
  let rc := recommendOf lv db hasAnyTag pre t classify
  ({ moduleSubdir := moduledir
     versionPfx := vpfx
     latestVersion := lv
     latestMajor := t.1
     latestMinor := t.2.1
     latestPatch := t.2.2
     latestVersionIsPrerelease := pre
     latestVersionUnstable := lv != "" && (t.1 == 0 || pre)
     modpath := modpath
     versionSuffix := suffixStatusOf dm.2.2 dm.2.1 t.1
     modpathMismatch := moduledir != "" && !(endsWithStr dm.1 ("/" ++ moduledir))
     defaultBranch := db
     latestCommit := (ti.map fun x => x.1).getD ""
     latestCommitHasVersionTag := hasAnyTag
     latestCommitHasLatestVersion := (ti.map fun x => x.2.1).getD false
     modverResultCode := if rc.2 == 1 then classify else ModverCode.none
     newMajor := rc.1.1
     newMinor := rc.1.2.1
     newPatch := rc.1.2.2 }, rc.2)

/-- Model of `Check` from the ref snapshot on (src/unnamed/part_000
lines 151-286): sort the version tag names, extract the latest triple
with `versionRegex` (an extraction failure aborts the module), then
build the `Result`.  The returned `Nat` counts classifier
invocations. -/
def checkCore (moduledir : String) (heads : List (String × String))
    (remotes : List (String × List (String × String)))
    (versions : List (String × String)) (modpath : String)
    (classify : ModverCode) : Except String (Result × Nat) :=
  if (versions.map Prod.fst).dedup.isEmpty then
    Except.ok (checkOk moduledir heads remotes versions modpath classify (0, 0, 0))
  else
    match regexTriple (latestVersionOf (versions.map Prod.fst)).data with
    | Option.none => Except.error ("parsing version " ++ latestVersionOf (versions.map Prod.fst))
    | some t => Except.ok (checkOk moduledir heads remotes versions modpath classify t)

instance {ε α : Type} [DecidableEq ε] [DecidableEq α] : DecidableEq (Except ε α) := fun a b =>
  match a, b with
  | Except.ok x, Except.ok y => decidable_of_iff (x = y) (by simp)
  | Except.ok _, Except.error _ => isFalse (by simp)
  | Except.error _, Except.ok _ => isFalse (by simp)
  | Except.error e, Except.error f => decidable_of_iff (e = f) (by simp)

/-! ### The ref snapshot builder (gitRefs and the Check callback) -/

/-- The classified ref state built by `Check`'s callback to `gitRefs`
(src/unnamed/part_000 lines 94-99). -/
structure Snapshot where
  heads : List (String × String)
  remotes : List (String × List (String × String))
  tags : List (String × String)
  versions : List (String × String)
deriving DecidableEq

/-- Go map write: overwrite the binding of `k` if present, else add it. -/
def setStr (m : List (String × String)) (k v : String) : List (String × String) :=
  if m.any fun p => p.1 == k then m.map fun p => if p.1 == k then (k, v) else p
  else m ++ [(k, v)]

/-- Write into the nested remotes map (`remotes[remote][ref] = hash`,
src/unnamed/part_000 lines 116-121). -/
def setRemote (rs : List (String × List (String × String))) (remote k v : String) :
    List (String × List (String × String)) :=
  let m2 := setStr ((List.lookup remote rs).getD []) k v
  if rs.any fun p => p.1 == remote then rs.map fun p => if p.1 == remote then (remote, m2) else p
  else rs ++ [(remote, m2)]

/-- Model of `strings.HasPrefix`. -/
def startsWithStr (s p : String) : Bool := p.data.isPrefixOf s.data

/-- Drop the first `n` characters of a string (a checked
`strings.TrimPrefix`). -/
def dropChars (s : String) (n : Nat) : String := String.mk (s.data.drop n)

/-- Model of `strings.SplitN(s, "/", 2)` when used to split a remote ref
name: `none` when there is no slash (the entry is dropped). -/
def splitFirstSlash (s : String) : Option (String × String) :=
  let p1 := s.data.takeWhile fun c => c != '/'
  if p1.length == s.data.length then Option.none
  else some (String.mk p1, String.mk (s.data.drop (p1.length + 1)))

/-- The ref-classification callback of `Check` (src/unnamed/part_000
lines 101-146).  `resolveTag` models `gitTagCommit`, the collaborator
resolving a tag to its underlying commit; its failure aborts the
build. -/
def classifyRef (resolveTag : String → Except String String) (vpfx : String)
    (st : Snapshot) (name hash : String) : Except String Snapshot :=
  if startsWithStr name "refs/heads/" then
    Except.ok { st with heads := setStr st.heads (dropChars name 11) hash }
  else if startsWithStr name "refs/remotes/" then
    match splitFirstSlash (dropChars name 13) with
    | Option.none => Except.ok st
    | some (remote, rref) => Except.ok { st with remotes := setRemote st.remotes remote rref hash }
  else if startsWithStr name "refs/tags/" then
    let tn := dropChars name 10
    match resolveTag tn with
    | Except.error e => Except.error ("resolving commit for tag " ++ tn ++ ": " ++ e)
    | Except.ok h2 =>
      let st2 := { st with tags := setStr st.tags tn h2 }
      if vpfx != "" then
        if !startsWithStr tn vpfx then Except.ok st2
        else
          let vn := dropChars tn vpfx.data.length
          if isValidSemver vn then Except.ok { st2 with versions := setStr st2.versions vn h2 }
          else Except.ok st2
      else
        if isValidSemver tn then Except.ok { st2 with versions := setStr st2.versions tn h2 }
        else Except.ok st2
  else Except.ok st

/-- Whitespace for the field splitter (`strings.Fields`; ASCII subset of
`unicode.IsSpace`, enough for `git show-ref` output). -/
def isSpaceChar (c : Char) : Bool :=
  c == ' ' || c == '\t' || c == '\n' || c == '\r' || c == '\x0b' || c == '\x0c'

/-- Accumulator pass for `fieldsOf`: collect maximal nonempty runs of
non-whitespace characters. -/
def fieldsAux : List Char → List Char → List String
  | [], acc => if acc.isEmpty then [] else [String.mk acc.reverse]
  | c :: cs, acc =>
    if isSpaceChar c then
      if acc.isEmpty then fieldsAux cs [] else String.mk acc.reverse :: fieldsAux cs []
    else fieldsAux cs (c :: acc)

/-- Model of `strings.Fields`: split on whitespace runs. -/
def fieldsOf (s : String) : List String := fieldsAux s.data []

/-- The scanning loop of `gitRefs` (src/git.go lines 24-35): each output
line is split into fields; a line that does not have exactly two fields
is silently skipped (`continue`, line 29); a well-formed `hash name`
line is handed to the callback, whose error aborts the run. -/
def gitRefsLines (f : Snapshot → String → String → Except String Snapshot) :
    List String → Snapshot → Except String Snapshot
  | [], st => Except.ok st
  | line :: rest, st =>
    match fieldsOf line with
    | [hash, name] =>
      match f st name hash with
      | Except.error e => Except.error e
      | Except.ok st2 => gitRefsLines f rest st2
    | _ => gitRefsLines f rest st

/-- The empty classified ref state. -/
def emptySnapshot : Snapshot := ⟨[], [], [], []⟩

/-- Building the ref snapshot: `gitRefs` driving `Check`'s callback over
the listing command's output lines. -/
def buildSnapshot (resolveTag : String → Except String String) (vpfx : String)
    (lines : List String) : Except String Snapshot :=
  gitRefsLines (classifyRef resolveTag vpfx) lines emptySnapshot

/-! ### CheckAll -/

/-- Modelled from the spec: `modules.Each`, the external module
discoverer driving `CheckAll` (src/unnamed/part_000 lines 36-44), is
not under src/; per the spec it visits every discovered module
directory and collects callback errors without stopping ("failures for
one module do not abort the others except by surfacing as a joined
error", spec sections 2 and 4.6).  The callback body is from the
source: a module's `Result` enters the map only when its analysis
returned no error, and the error is handed back to `Each`.  Returns
the accumulated module map and the collected errors. -/
def checkAllCore : List String → (String → Except String Result) →
    List (String × Result) × List String
  | [], _ => ([], [])
  | d :: ds, runCheck =>
    let rest := checkAllCore ds runCheck
    match runCheck d with
    | Except.ok r => ((d, r) :: rest.1, rest.2)
    | Except.error e => (rest.1, e :: rest.2)

/-! ### The command layer (src/cmd/taggo/main.go) -/

/-- Go error trees as the command layer builds them: plain errors
(`fmt.Errorf`), wrapping (`errors.Wrapf`), the `exitErr` struct (code
plus wrapped error), and binary `errors.Join`. -/
inductive GoErr
  | basic (msg : String)
  | wrapCtx (msg : String) (inner : GoErr)
  | exitE (code : Nat) (inner : GoErr)
  | joinE (a b : GoErr)
deriving DecidableEq

/-- Model of `errors.As(err, &exitErr{})`: depth-first search for the
first `exitErr` in the error tree (`errors.Join` children are visited
left to right), returning its code field and wrapped error. -/
def findExit : GoErr → Option (Nat × GoErr)
  | GoErr.basic _ => Option.none
  | GoErr.wrapCtx _ inner => findExit inner
  | GoErr.exitE c inner => some (c, inner)
  | GoErr.joinE a b =>
    match findExit a with
    | some r => some r
    | Option.none => findExit b

/-- Model of `lcm` (main.go lines 236-238): `a / gcd(a, b) * b`, with
`gcd` the Euclidean loop of lines 240-245 (Nat.gcd on the non-negative
codes in scope). -/
def lcmGo (a b : Nat) : Nat := a / Nat.gcd a b * b

/-- Model of the `exitErr.Code` method (main.go lines 225-234) applied
to the first `exitErr` found in an error tree: its code, composed by
least common multiple with the code of any `exitErr` wrapped inside its
`err` field. -/
def codeAux : GoErr → Option Nat
  | GoErr.basic _ => Option.none
  | GoErr.wrapCtx _ inner => codeAux inner
  | GoErr.joinE a b =>
    match codeAux a with
    | some r => some r
    | Option.none => codeAux b
  | GoErr.exitE c inner =>
    some (match codeAux inner with
          | some k => lcmGo c k
          | Option.none => c)

/-- The exit-code computation of `main` (main.go lines 20-33): on a
non-nil error, `errors.As` extracts the first `exitErr` and the process
exits with its `code` field (`ee.code`, line 29 - not the `Code`
method); with an error but no `exitErr` the exit code is 1; with no
error the process exits 0. -/
def mainExitCode : Option GoErr → Nat
  | Option.none => 0
  | some e =>
    match findExit e with
    | some (c, _) => c
    | Option.none => 1

/-- What the exit code would be if `main` consulted the documented
`Code` method of the extracted `exitErr` instead of its `code` field. -/
def mainExitCodeViaMeth : Option GoErr → Nat
  | Option.none => 0
  | some e =>
    match codeAux e with
    | some c => c
    | Option.none => 1

/-- The error assembly of the single-module path of `run` (main.go lines
157-179): the `maybeAddTag` error, joined with `exitErr{code: 2}` when
`-status` is set and warnings were printed (`errors.Join` drops a nil
operand). -/
def runSingleErr (tagErr : Option GoErr) (statusOn : Bool) (warnings : Nat) : Option GoErr :=
  if statusOn && decide (0 < warnings) then
    some (match tagErr with
          | some te => GoErr.joinE te (GoErr.exitE 2 (GoErr.basic "warnings found"))
          | Option.none => GoErr.exitE 2 (GoErr.basic "warnings found"))
  else tagErr

/-- The outcome of `maybeAddTag`: silent no-op, refusal with the
distinguished exit-code-3 error, or invocation of `git tag` with the
computed tag name. -/
inductive TagOutcome
  | noop
  | refuseMajor (tag : String)
  | created (tag : String)
deriving DecidableEq

/-- The bare recommended tag string `fmt.Sprintf("v%d.%d.%d", ...)`
(main.go line 261). -/
def bareTagOf (r : Result) : String :=
  "v" ++ toString r.newMajor ++ "." ++ toString r.newMinor ++ "." ++ toString r.newPatch

/-- Model of `maybeAddTag` (main.go lines 247-289): the guard chain of
silent no-ops, then the refusal of a major-version change, then tag
creation. -/
def maybeAddTag (r : Result) : TagOutcome :=
  if r.defaultBranch == "" then TagOutcome.noop
  else if r.latestCommit == "" then TagOutcome.noop
  else if r.latestCommitHasVersionTag then TagOutcome.noop
  else if r.newMajor == 0 && r.newMinor == 0 && r.newPatch == 0 then TagOutcome.noop
  else if bareTagOf r == r.latestVersion then TagOutcome.noop
  else
    let tag := r.versionPfx ++ bareTagOf r
    if r.newMajor != r.latestMajor then TagOutcome.refuseMajor tag
    else TagOutcome.created tag

/-- The error value `maybeAddTag` returns on a refused major bump
(main.go line 268); nil otherwise. -/
def maybeAddTagErr (r : Result) : Option GoErr :=
  match maybeAddTag r with
  | TagOutcome.refuseMajor tag =>
    some (GoErr.exitE 3 (GoErr.basic ("will not add new major-version tag " ++ tag)))
  | _ => Option.none

/-! ### Properties of the latest-version computation -/

example : latestVersionOf ["v1.2.3", "v1.10.0", "v1.3.0"] = "v1.10.0" := by decide

example : latestVersionOf ["v2.0.0-alpha", "v2.0.0"] = "v2.0.0" := by decide

example : latestVersionOf ["v2.0.0-beta", "v2.0.0-alpha.9", "v2.0.0-alpha.10"] = "v2.0.0-beta" := by
  decide

example : isValidSemver "v1.2.3-rc1" = true := by decide

example : isValidSemver "lib/v1.2.3" = false := by decide

example : semverPreB "v1.2.3-rc1" = true := by decide

theorem sorted_vle_getLast :
    ∀ (l : List String), l.Sorted vle → ∀ a ∈ l, ∀ h : l ≠ [], vle a (l.getLast h)
  | [], _, a, ha, _ => by simp at ha
  | [x], _, a, ha, _ => by
    simp at ha
    subst ha
    exact le_refl _
  | x :: y :: t, hs, a, ha, h => by
    have hlast : (x :: y :: t).getLast h = (y :: t).getLast (by simp) := by
      simp [List.getLast]
    rcases List.mem_cons.1 ha with rfl | ha2
    · have hmem : (y :: t).getLast (by simp) ∈ y :: t := List.getLast_mem _
      have := List.rel_of_sorted_cons hs _ hmem
      rw [hlast]
      exact this
    · have := sorted_vle_getLast (y :: t) hs.of_cons a ha2 (by simp)
      rw [hlast]
      exact this

theorem latestVersionOf_mem {names : List String} (h : names ≠ []) :
    latestVersionOf names ∈ names := by
  have hd : names.dedup ≠ [] := by
    intro hnil
    exact h ((List.dedup_eq_nil names).1 hnil)
  have hsortne : List.insertionSort vle names.dedup ≠ [] := by
    intro hnil
    exact hd ((List.perm_insertionSort vle names.dedup).symm.trans (hnil ▸ List.Perm.refl _)).eq_nil
  have hlast := List.getLast?_eq_getLast _ hsortne
  have hmem : (List.insertionSort vle names.dedup).getLast hsortne
      ∈ List.insertionSort vle names.dedup := List.getLast_mem _
  rw [List.mem_insertionSort, List.mem_dedup] at hmem
  unfold latestVersionOf
  rw [hlast]
  exact hmem

theorem latestVersionOf_max {names : List String} {v : String} (hv : v ∈ names) :
    semverPrecLe v (latestVersionOf names) := by
  have hvd : v ∈ names.dedup := List.mem_dedup.2 hv
  have hvs : v ∈ List.insertionSort vle names.dedup := (List.mem_insertionSort vle).2 hvd
  have hsortne : List.insertionSort vle names.dedup ≠ [] := by
    intro hnil
    rw [hnil] at hvs
    simp at hvs
  have hvle := sorted_vle_getLast _ (List.sorted_insertionSort vle names.dedup) v hvs hsortne
  have hlast := List.getLast?_eq_getLast _ hsortne
  unfold latestVersionOf
  rw [hlast]
  have := (Prod.Lex.le_iff _ _).1 hvle
  rcases this with hlt | ⟨heq, _⟩
  · exact le_of_lt hlt
  · exact le_of_eq heq

theorem latestVersionOf_perm {names names' : List String} (h : names.Perm names') :
    latestVersionOf names = latestVersionOf names' := by
  have hd : names.dedup.Perm names'.dedup := h.dedup
  have hp : (List.insertionSort vle names.dedup).Perm (List.insertionSort vle names'.dedup) :=
    (List.perm_insertionSort vle names.dedup).trans
      (hd.trans (List.perm_insertionSort vle names'.dedup).symm)
  have heq : List.insertionSort vle names.dedup = List.insertionSort vle names'.dedup :=
    List.eq_of_perm_of_sorted hp (List.sorted_insertionSort vle names.dedup)
      (List.sorted_insertionSort vle names'.dedup)
  unfold latestVersionOf
  rw [heq]

/-! ### Shape lemmas for checkCore -/

theorem checkCore_ok_shape {moduledir : String} {heads : List (String × String)}
    {remotes : List (String × List (String × String))} {versions : List (String × String)}
    {modpath : String} {classify : ModverCode} {r : Result} {calls : Nat}
    (hok : checkCore moduledir heads remotes versions modpath classify = Except.ok (r, calls)) :
    ∃ t, checkOk moduledir heads remotes versions modpath classify t = (r, calls) := by
  unfold checkCore at hok
  split at hok
  · exact ⟨(0, 0, 0), by injection hok⟩
  · split at hok
    · exact absurd hok (by simp)
    · exact ⟨_, by injection hok⟩

theorem checkOk_latestVersion (moduledir : String) (heads : List (String × String))
    (remotes : List (String × List (String × String))) (versions : List (String × String))
    (modpath : String) (classify : ModverCode) (t : Nat × Nat × Nat) :
    (checkOk moduledir heads remotes versions modpath classify t).1.latestVersion =
      latestVersionOf (versions.map Prod.fst) := by
  simp [checkOk]

/-! ### Claim theorems -/

/-- C3: module-path suffix classification is total and mutually
exclusive, and for every (hasSuffix, suffixValue, latestMajor) triple -
in particular every one produced by `decomposeModpath` - the verdict of
`Check` equals the policy table of spec section 4.3. -/
theorem suffix_classification_matches_table (hasSfx : Bool) (sfxVer latestMajor : Nat) :
    suffixStatusOf hasSfx sfxVer latestMajor = specSuffixVerdict hasSfx sfxVer latestMajor ∧
    (suffixStatusOf hasSfx sfxVer latestMajor = VSStatus.ok ∨
     suffixStatusOf hasSfx sfxVer latestMajor = VSStatus.missing ∨
     suffixStatusOf hasSfx sfxVer latestMajor = VSStatus.unwanted ∨
     suffixStatusOf hasSfx sfxVer latestMajor = VSStatus.mismatch) := by
  constructor
  · cases hasSfx <;>
      simp only [suffixStatusOf, specSuffixVerdict, Bool.false_eq_true, if_false, if_true,
        Bool.not_false, Bool.not_true, Bool.or_eq_true, beq_iff_eq] <;>
      split_ifs <;> first | rfl | omega
  · cases hasSfx <;> simp only [suffixStatusOf] <;> split_ifs <;> simp

/-- C5 counterexample: a remote ref map whose `HEAD` hash equals its
`main` hash, with an empty local branch-head map; the claim says the
detector picks "main", but `detectDefaultBranch` never consults `HEAD`
and requires a matching local head, so it returns the empty string. -/
theorem detect_ignores_remote_head :
    detectDefaultBranch [("HEAD", "h1"), ("main", "h1")] [] = "" ∧
    List.lookup "HEAD" [("HEAD", "h1"), ("main", "h1")] =
      List.lookup "main" [("HEAD", "h1"), ("main", "h1")] := by decide

/-- C5 amended: the first rule of `detectDefaultBranch` picks "main"
exactly when "main" is a key of both the remote ref map and the local
branch-head map and the two hashes agree; the remote `HEAD` entry plays
no role, and the local branch-head map does matter. -/
theorem detect_picks_main_from_local_heads (rr heads : List (String × String))
    (h1 : (candidatesOf rr heads).contains "main" = true)
    (h2 : mapGet rr "main" = mapGet heads "main") :
    detectDefaultBranch rr heads = "main" := by
  have h1' : "main" ∈ candidatesOf rr heads := by simpa using h1
  simp [detectDefaultBranch, h1', h2]

theorem detect_picks_main_witness :
    detectDefaultBranch [("main", "h")] [("main", "h")] = "main" :=
  detect_picks_main_from_local_heads [("main", "h")] [("main", "h")] (by decide) (by decide)

/-- C7 amended: `gitRefsLines` silently skips every line that does not
split into exactly two fields and processes the remaining well-formed
lines; malformed lines never produce an error. -/
theorem refs_build_ignores_malformed (f : Snapshot → String → String → Except String Snapshot)
    (lines : List String) (st : Snapshot) :
    gitRefsLines f lines st =
      gitRefsLines f (lines.filter fun l => (fieldsOf l).length == 2) st := by
  induction lines generalizing st with
  | nil => rfl
  | cons line rest ih =>
    rcases hf : fieldsOf line with _ | ⟨a, _ | ⟨b, _ | ⟨c, cs⟩⟩⟩ <;>
      simp only [gitRefsLines, hf, List.filter, List.length, Nat.reduceBEq, Nat.reduceAdd]
    · exact ih st
    · exact ih st
    · rcases hcall : f st b a with e | st2
      · simp [gitRefsLines, hf, hcall]
      · simp only [gitRefsLines, hf, hcall]
        exact ih st2
    · exact ih st

/-- C7 counterexample: a listing run whose output contains lines that
are not well-formed hash-and-name pairs ("garbage" has one field,
"a b c" has three); the claim says the build fails with an error and no
snapshot is returned, but the build succeeds and returns the snapshot
of the well-formed lines. -/
theorem refs_malformed_line_no_error :
    buildSnapshot (fun _ => Except.error "unused") "" ["deadbeef refs/heads/main", "garbage", "a b c"]
      = Except.ok { heads := [("main", "deadbeef")], remotes := [], tags := [], versions := [] } ∧
    (fieldsOf "garbage").length ≠ 2 ∧ (fieldsOf "a b c").length ≠ 2 := by decide

/-- The `Result` produced by `Check` on a repository whose tip commit
`c1` follows the latest tag `v1.2.3` (placed on commit `c0`) with a
change the classifier rates as major. -/
def c8res : Result :=
  { moduleSubdir := ""
    versionPfx := ""
    latestVersion := "v1.2.3"
    latestMajor := 1
    latestMinor := 2
    latestPatch := 3
    latestVersionIsPrerelease := false
    latestVersionUnstable := false
    modpath := "example.com/mod"
    versionSuffix := VSStatus.ok
    modpathMismatch := false
    defaultBranch := "main"
    latestCommit := "c1"
    latestCommitHasVersionTag := false
    latestCommitHasLatestVersion := false
    modverResultCode := ModverCode.major
    newMajor := 2
    newMinor := 0
    newPatch := 0 }

/-- C8: in a single `-add -status` invocation where tag creation is
refused because the recommendation changes the major number (the
exit-code-3 `exitErr`) and the warnings-exit mode fires (the
exit-code-2 `exitErr`), the modelled process exit code is 3, not the
least common multiple 6: `main` reads the `code` field of the first
`exitErr` that `errors.As` finds, and since `errors.Join` makes the two
`exitErr` values siblings rather than nesting one inside the other's
`err` field, even the documented LCM-composing `Code` method would
return 3. -/
theorem exit_codes_do_not_compose :
    checkCore "" [("main", "c1")] [("origin", [("main", "c1")])] [("v1.2.3", "c0")]
        "example.com/mod" ModverCode.major = Except.ok (c8res, 1) ∧
    maybeAddTagErr c8res =
      some (GoErr.exitE 3 (GoErr.basic "will not add new major-version tag v2.0.0")) ∧
    mainExitCode (runSingleErr (maybeAddTagErr c8res) true 1) = 3 ∧
    mainExitCodeViaMeth (runSingleErr (maybeAddTagErr c8res) true 1) = 3 ∧
    lcmGo 2 3 = 6 ∧
    mainExitCode (runSingleErr (maybeAddTagErr c8res) true 1) ≠ lcmGo 2 3 := by decide

/-- The `Result` produced by `Check` when the latest version is the
prerelease `v1.2.3-pre` (on commit `c1`), the tip `c9` of the default
branch has no version tag, and the classifier reports a patch-level
change: the recommended triple stays (1,2,3). -/
def c10r : Result :=
  { moduleSubdir := ""
    versionPfx := ""
    latestVersion := "v1.2.3-pre"
    latestMajor := 1
    latestMinor := 2
    latestPatch := 3
    latestVersionIsPrerelease := true
    latestVersionUnstable := true
    modpath := "example.com/mod"
    versionSuffix := VSStatus.ok
    modpathMismatch := false
    defaultBranch := "main"
    latestCommit := "c9"
    latestCommitHasVersionTag := false
    latestCommitHasLatestVersion := false
    modverResultCode := ModverCode.patchlevel
    newMajor := 1
    newMinor := 2
    newPatch := 3 }

/-- C10 counterexample: in the situation the claim describes (latest
version a prerelease, classifier reports patch-level, default branch
and tip known, tip untagged, recommended triple non-zero), the bare
recommended tag "v1.2.3" does not equal the latest version tag
"v1.2.3-pre", so `maybeAddTag` does not silently refuse - it creates
the tag. -/
theorem prerelease_patch_tag_created :
    checkCore "" [("main", "c9")] [("origin", [("main", "c9")])] [("v1.2.3-pre", "c1")]
        "example.com/mod" ModverCode.patchlevel = Except.ok (c10r, 1) ∧
    c10r.latestVersionIsPrerelease = true ∧
    ¬(c10r.newMajor = 0 ∧ c10r.newMinor = 0 ∧ c10r.newPatch = 0) ∧
    bareTagOf c10r ≠ c10r.latestVersion ∧
    maybeAddTag c10r = TagOutcome.created "v1.2.3" := by decide

/-- C10 amended: `maybeAddTag` silently refuses (no-op, no error)
whenever the bare recommended tag string equals the latest version tag;
this situation arises when the recommended triple reproduces a
non-prerelease latest version (classifier verdict None), not in the
prerelease/patch-level case, where the two strings differ. -/
theorem bare_tag_equal_is_silent_noop (r : Result) (h : bareTagOf r = r.latestVersion) :
    maybeAddTag r = TagOutcome.noop := by
  simp [maybeAddTag, h]

/-- A `Result` whose recommended triple reproduces the latest version
`v1.2.3` exactly (classifier verdict None on an untagged tip). -/
def c10w : Result :=
  { moduleSubdir := ""
    versionPfx := ""
    latestVersion := "v1.2.3"
    latestMajor := 1
    latestMinor := 2
    latestPatch := 3
    latestVersionIsPrerelease := false
    latestVersionUnstable := false
    modpath := "example.com/mod"
    versionSuffix := VSStatus.ok
    modpathMismatch := false
    defaultBranch := "main"
    latestCommit := "c9"
    latestCommitHasVersionTag := false
    latestCommitHasLatestVersion := false
    modverResultCode := ModverCode.none
    newMajor := 1
    newMinor := 2
    newPatch := 3 }

theorem bare_tag_equal_witness : maybeAddTag c10w = TagOutcome.noop :=
  bare_tag_equal_is_silent_noop c10w (by decide)

/-! ### CheckAll isolation (C6) -/

theorem checkAll_mem_ok {f : String → Except String Result} :
    ∀ {ds : List String} {d : String} {r : Result},
      (d, r) ∈ (checkAllCore ds f).1 → f d = Except.ok r := by
  intro ds
  induction ds with
  | nil => intro d r h; simp [checkAllCore] at h
  | cons x t ih =>
    intro d r h
    unfold checkAllCore at h
    rcases hf : f x with e | rx <;> rw [hf] at h
    · exact ih h
    · rcases List.mem_cons.1 h with heq | hm
      · obtain ⟨hd, hr⟩ := Prod.mk.inj heq
        rw [hd, hr]
        exact hf
      · exact ih hm

theorem checkAll_ok_mem {f : String → Except String Result} :
    ∀ {ds : List String} {d : String} {r : Result},
      d ∈ ds → f d = Except.ok r → (d, r) ∈ (checkAllCore ds f).1 := by
  intro ds
  induction ds with
  | nil => intro d r h; cases h
  | cons x t ih =>
    intro d r hd hr
    unfold checkAllCore
    rcases List.mem_cons.1 hd with rfl | hm
    · rw [hr]
      exact List.mem_cons_self _ _
    · rcases hf : f x with e | rx
      · exact ih hm hr
      · exact List.mem_cons_of_mem _ (ih hm hr)

theorem checkAll_err_mem {f : String → Except String Result} :
    ∀ {ds : List String} {d : String} {e : String},
      d ∈ ds → f d = Except.error e → e ∈ (checkAllCore ds f).2 := by
  intro ds
  induction ds with
  | nil => intro d e h; cases h
  | cons x t ih =>
    intro d e hd he
    unfold checkAllCore
    rcases List.mem_cons.1 hd with rfl | hm
    · rw [he]
      exact List.mem_cons_self _ _
    · rcases hf : f x with e' | rx
      · exact List.mem_cons_of_mem _ (ih hm he)
      · exact ih hm he

/-- C6: in `CheckAll`, a module whose analysis fails is excluded from
the result map while its error is reported, and a failure of one module
does not prevent the others: every module whose own analysis succeeds
appears in the returned map. -/
theorem checkall_isolates_module_failures (dirs : List String)
    (runCheck : String → Except String Result) (d : String) (hd : d ∈ dirs) :
    (∀ r, runCheck d = Except.ok r → (d, r) ∈ (checkAllCore dirs runCheck).1) ∧
    (∀ e, runCheck d = Except.error e →
      (∀ r, (d, r) ∉ (checkAllCore dirs runCheck).1) ∧ e ∈ (checkAllCore dirs runCheck).2) := by
  constructor
  · intro r hr
    exact checkAll_ok_mem hd hr
  · intro e he
    refine ⟨fun r hmem => ?_, checkAll_err_mem hd he⟩
    have hok := checkAll_mem_ok hmem
    rw [he] at hok
    exact absurd hok (by simp)

/-- A `Result` whose fields are all zero values. -/
def blankRes : Result :=
  { moduleSubdir := ""
    versionPfx := ""
    latestVersion := ""
    latestMajor := 0
    latestMinor := 0
    latestPatch := 0
    latestVersionIsPrerelease := false
    latestVersionUnstable := false
    modpath := ""
    versionSuffix := VSStatus.ok
    modpathMismatch := false
    defaultBranch := ""
    latestCommit := ""
    latestCommitHasVersionTag := false
    latestCommitHasLatestVersion := false
    modverResultCode := ModverCode.none
    newMajor := 0
    newMinor := 0
    newPatch := 0 }

/-- A two-module scan in which the module "bad" fails. -/
def c6run : String → Except String Result :=
  fun d => if d == "bad" then Except.error "go.mod malformed" else Except.ok blankRes

theorem checkall_isolates_witness :
    ("good", blankRes) ∈ (checkAllCore ["good", "bad"] c6run).1 ∧
    ("bad", blankRes) ∉ (checkAllCore ["good", "bad"] c6run).1 ∧
    "go.mod malformed" ∈ (checkAllCore ["good", "bad"] c6run).2 := by
  have hg := (checkall_isolates_module_failures ["good", "bad"] c6run "good"
    (by decide)).1 blankRes (by rfl)
  have hb := (checkall_isolates_module_failures ["good", "bad"] c6run "bad"
    (by decide)).2 "go.mod malformed" (by rfl)
  exact ⟨hg, hb.1 blankRes, hb.2⟩

/-! ### The recommendation gate (C1, C4) -/

theorem tipInfo_any_of_latest {heads versions : List (String × String)} {db lv : String}
    {x : String × Bool × Bool} (hti : tipInfoOf heads versions db lv = some x)
    (hl : x.2.1 = true) : x.2.2 = true := by
  unfold tipInfoOf at hti
  split at hti
  · exact absurd hti (by simp)
  · split at hti
    · exact absurd hti (by simp)
    · injection hti with h
      subst h
      simp only at hl ⊢
      rw [hl]
      simp

theorem checkOk_zero_of_tip_latest (moduledir : String) (heads : List (String × String))
    (remotes : List (String × List (String × String))) (versions : List (String × String))
    (modpath : String) (classify : ModverCode) (t : Nat × Nat × Nat) (r : Result) (calls : Nat)
    (hEq : checkOk moduledir heads remotes versions modpath classify t = (r, calls))
    (hlv : r.latestVersion ≠ "")
    (htip : r.latestCommitHasLatestVersion = true) :
    calls = 0 ∧ r.newMajor = 0 ∧ r.newMinor = 0 ∧ r.newPatch = 0 := by
  have h1 : (checkOk moduledir heads remotes versions modpath classify t).1 = r :=
    congrArg Prod.fst hEq
  have h2 : (checkOk moduledir heads remotes versions modpath classify t).2 = calls :=
    congrArg Prod.snd hEq
  subst h1
  subst h2
  simp only [checkOk] at hlv htip ⊢
  rcases hti : tipInfoOf heads versions (chooseDefaultBranch remotes heads)
      (latestVersionOf (versions.map Prod.fst)) with _ | x
  · rw [hti] at htip
    simp at htip
  · have hany : x.2.2 = true := by
      apply tipInfo_any_of_latest hti
      rw [hti] at htip
      simpa using htip
    have hlvB : (latestVersionOf (versions.map Prod.fst) != "") = true := by
      simpa [bne_iff_ne] using hlv
    simp [recommendOf, hlvB, hany]

/-- C1: when version tags exist, the default branch is determinable and
the tip of the default branch carries the latest version tag, `Check`
makes zero classifier invocations and recommends the zero triple. -/
theorem check_no_classifier_when_tip_has_latest (moduledir : String)
    (heads : List (String × String)) (remotes : List (String × List (String × String)))
    (versions : List (String × String)) (modpath : String) (classify : ModverCode)
    (r : Result) (calls : Nat)
    (hok : checkCore moduledir heads remotes versions modpath classify = Except.ok (r, calls))
    (hlv : r.latestVersion ≠ "")
    (_hdb : r.defaultBranch ≠ "")
    (htip : r.latestCommitHasLatestVersion = true) :
    calls = 0 ∧ r.newMajor = 0 ∧ r.newMinor = 0 ∧ r.newPatch = 0 := by
  obtain ⟨t, hEq⟩ := checkCore_ok_shape hok
  exact checkOk_zero_of_tip_latest moduledir heads remotes versions modpath classify t r calls
    hEq hlv htip

/-- The `Result` of `Check` on a repository whose tip carries the latest
tag `v1.0.0`. -/
def c1res : Result :=
  { moduleSubdir := ""
    versionPfx := ""
    latestVersion := "v1.0.0"
    latestMajor := 1
    latestMinor := 0
    latestPatch := 0
    latestVersionIsPrerelease := false
    latestVersionUnstable := false
    modpath := "example.com/mod"
    versionSuffix := VSStatus.ok
    modpathMismatch := false
    defaultBranch := "main"
    latestCommit := "c1"
    latestCommitHasVersionTag := true
    latestCommitHasLatestVersion := true
    modverResultCode := ModverCode.none
    newMajor := 0
    newMinor := 0
    newPatch := 0 }

theorem check_no_classifier_witness :
    c1res.latestVersion ≠ "" ∧ c1res.defaultBranch ≠ "" ∧
    c1res.latestCommitHasLatestVersion = true ∧
    ((0 : Nat) = 0 ∧ c1res.newMajor = 0 ∧ c1res.newMinor = 0 ∧ c1res.newPatch = 0) :=
  ⟨by decide, by decide, by decide,
    check_no_classifier_when_tip_has_latest "" [("main", "c1")] [("origin", [("main", "c1")])]
      [("v1.0.0", "c1")] "example.com/mod" ModverCode.major c1res 0
      (by decide) (by decide) (by decide) (by decide)⟩

theorem checkOk_patch_rec (moduledir : String) (heads : List (String × String))
    (remotes : List (String × List (String × String))) (versions : List (String × String))
    (modpath : String) (t : Nat × Nat × Nat) (r : Result) (calls : Nat)
    (hEq : checkOk moduledir heads remotes versions modpath ModverCode.patchlevel t = (r, calls))
    (hlv : r.latestVersion ≠ "")
    (hdb : r.defaultBranch ≠ "")
    (hnotag : r.latestCommitHasVersionTag = false) :
    (r.latestVersionIsPrerelease = true →
      (r.newMajor, r.newMinor, r.newPatch) = (r.latestMajor, r.latestMinor, r.latestPatch)) ∧
    (r.latestVersionIsPrerelease = false →
      (r.newMajor, r.newMinor, r.newPatch) = (r.latestMajor, r.latestMinor, r.latestPatch + 1)) := by
  have h1 : (checkOk moduledir heads remotes versions modpath ModverCode.patchlevel t).1 = r :=
    congrArg Prod.fst hEq
  have h2 : (checkOk moduledir heads remotes versions modpath ModverCode.patchlevel t).2 = calls :=
    congrArg Prod.snd hEq
  subst h1
  subst h2
  simp only [checkOk] at hlv hdb hnotag ⊢
  have hlvB : (latestVersionOf (versions.map Prod.fst) != "") = true := by
    simpa [bne_iff_ne] using hlv
  have hdbB : (chooseDefaultBranch remotes heads != "") = true := by
    simpa [bne_iff_ne] using hdb
  rw [hnotag]
  cases hpre : semverPreB (latestVersionOf (versions.map Prod.fst)) <;>
    simp [recommendOf, hlvB, hdbB, hpre]

/-- C4: when the classifier reports a patch-level change (and is
actually consulted: versions exist, the default branch is known and the
tip has no version tag), `Check` bumps the patch by 1 relative to the
latest version, unless the latest version is a prerelease, in which
case the recommended triple equals the latest version's triple. -/
theorem check_patch_bump_unless_prerelease (moduledir : String)
    (heads : List (String × String)) (remotes : List (String × List (String × String)))
    (versions : List (String × String)) (modpath : String) (r : Result) (calls : Nat)
    (hok : checkCore moduledir heads remotes versions modpath ModverCode.patchlevel =
      Except.ok (r, calls))
    (hlv : r.latestVersion ≠ "")
    (hdb : r.defaultBranch ≠ "")
    (hnotag : r.latestCommitHasVersionTag = false) :
    (r.latestVersionIsPrerelease = true →
      (r.newMajor, r.newMinor, r.newPatch) = (r.latestMajor, r.latestMinor, r.latestPatch)) ∧
    (r.latestVersionIsPrerelease = false →
      (r.newMajor, r.newMinor, r.newPatch) = (r.latestMajor, r.latestMinor, r.latestPatch + 1)) := by
  obtain ⟨t, hEq⟩ := checkCore_ok_shape hok
  exact checkOk_patch_rec moduledir heads remotes versions modpath t r calls hEq hlv hdb hnotag

/-- The `Result` of `Check` when the latest version is the prerelease
`v2.3.4-beta.1`, the tip `b2` is untagged, and the classifier reports a
patch-level change. -/
def c4res : Result :=
  { moduleSubdir := ""
    versionPfx := ""
    latestVersion := "v2.3.4-beta.1"
    latestMajor := 2
    latestMinor := 3
    latestPatch := 4
    latestVersionIsPrerelease := true
    latestVersionUnstable := true
    modpath := "example.com/mod/v2"
    versionSuffix := VSStatus.ok
    modpathMismatch := false
    defaultBranch := "main"
    latestCommit := "b2"
    latestCommitHasVersionTag := false
    latestCommitHasLatestVersion := false
    modverResultCode := ModverCode.patchlevel
    newMajor := 2
    newMinor := 3
    newPatch := 4 }

theorem check_patch_bump_witness :
    c4res.latestVersion ≠ "" ∧ c4res.defaultBranch ≠ "" ∧
    c4res.latestCommitHasVersionTag = false ∧
    (c4res.newMajor, c4res.newMinor, c4res.newPatch) =
      (c4res.latestMajor, c4res.latestMinor, c4res.latestPatch) :=
  ⟨by decide, by decide, by decide,
    (check_patch_bump_unless_prerelease "" [("main", "b2")] [("origin", [("main", "b2")])]
      [("v2.3.4-beta.1", "a1")] "example.com/mod/v2" c4res 1
      (by decide) (by decide) (by decide) (by decide)).1 (by decide)⟩

/-! ### Latest version is the semver maximum (C2) -/

/-- C2: the latest version computed by `Check` on the surviving version
tag names is a member of that set, is maximal under semantic-version
precedence, and is identical for every order in which the tags were
delivered (permutation invariance). -/
theorem check_latest_is_semver_max (moduledir : String) (heads : List (String × String))
    (remotes : List (String × List (String × String))) (versions : List (String × String))
    (modpath : String) (classify : ModverCode) (r : Result) (calls : Nat)
    (hok : checkCore moduledir heads remotes versions modpath classify = Except.ok (r, calls))
    (hne : versions ≠ []) :
    r.latestVersion ∈ versions.map Prod.fst ∧
    (∀ v ∈ versions.map Prod.fst, semverPrecLe v r.latestVersion) ∧
    (∀ (moduledir' : String) (heads' : List (String × String))
        (remotes' : List (String × List (String × String)))
        (versions' : List (String × String)) (modpath' : String) (classify' : ModverCode)
        (r' : Result) (calls' : Nat),
      checkCore moduledir' heads' remotes' versions' modpath' classify' =
        Except.ok (r', calls') →
      (versions.map Prod.fst).Perm (versions'.map Prod.fst) →
      r'.latestVersion = r.latestVersion) := by
  obtain ⟨t, hEq⟩ := checkCore_ok_shape hok
  have hrl := checkOk_latestVersion moduledir heads remotes versions modpath classify t
  rw [congrArg Prod.fst hEq] at hrl
  have hnameNe : versions.map Prod.fst ≠ [] := by simpa using hne
  refine ⟨?_, ?_, ?_⟩
  · rw [hrl]
    exact latestVersionOf_mem hnameNe
  · intro v hv
    rw [hrl]
    exact latestVersionOf_max hv
  · intro md' hd' rm' vs' mp' cl' r' calls' hok' hperm
    obtain ⟨t', hEq'⟩ := checkCore_ok_shape hok'
    have hrl' := checkOk_latestVersion md' hd' rm' vs' mp' cl' t'
    rw [congrArg Prod.fst hEq'] at hrl'
    rw [hrl', hrl, latestVersionOf_perm hperm]

/-- The version map of the C2 witness repository. -/
def c2versions : List (String × String) := [("v1.0.0", "a"), ("v1.2.0", "b")]

/-- The `Result` of `Check` on the C2 witness repository (untagged tip
`x`, classifier verdict Minor). -/
def c2res : Result :=
  { moduleSubdir := ""
    versionPfx := ""
    latestVersion := "v1.2.0"
    latestMajor := 1
    latestMinor := 2
    latestPatch := 0
    latestVersionIsPrerelease := false
    latestVersionUnstable := false
    modpath := "example.com/mod"
    versionSuffix := VSStatus.ok
    modpathMismatch := false
    defaultBranch := "main"
    latestCommit := "x"
    latestCommitHasVersionTag := false
    latestCommitHasLatestVersion := false
    modverResultCode := ModverCode.minor
    newMajor := 1
    newMinor := 3
    newPatch := 0 }

theorem check_latest_max_witness :
    c2versions ≠ [] ∧ c2res.latestVersion ∈ c2versions.map Prod.fst ∧
    semverPrecLe "v1.0.0" c2res.latestVersion :=
  have h := check_latest_is_semver_max "" [("main", "x")] [("origin", [("main", "x")])]
    c2versions "example.com/mod" ModverCode.minor c2res 1 (by decide) (by decide)
  ⟨by decide, h.1, h.2.1 "v1.0.0" (by decide)⟩

/-! ### Determinism and remote iteration order (C9) -/

/-- C9 counterexample: two runs over the same snapshot that differ only
in the iteration order of the remotes map (a permutation) produce
different `Result`s - with no usable `origin` remote, remote `alpha`
yields default branch "main" and remote `beta` yields "master", and the
fallback loop takes whichever comes first. -/
theorem check_depends_on_remote_iteration_order :
    List.Perm [("alpha", [("main", "h1")]), ("beta", [("master", "h2")])]
      [("beta", [("master", "h2")]), ("alpha", [("main", "h1")])] ∧
    checkCore "" [("main", "h1"), ("master", "h2")]
        [("alpha", [("main", "h1")]), ("beta", [("master", "h2")])]
        [("v1.0.0", "zzz")] "example.com/mod" ModverCode.none ≠
      checkCore "" [("main", "h1"), ("master", "h2")]
        [("beta", [("master", "h2")]), ("alpha", [("main", "h1")])]
        [("v1.0.0", "zzz")] "example.com/mod" ModverCode.none := by
  constructor
  · decide
  · decide

/-- C9 amended: `Check` is a pure function of the snapshot together
with the remote iteration order, and whenever the `origin` remote
determines the default branch the `Result` does not depend on the
iteration order of the other remotes; only when `origin` fails and two
remotes yield different default branches can the outcome differ between
runs. -/
theorem check_deterministic_given_origin (moduledir : String)
    (heads rr : List (String × String))
    (rest rest' : List (String × List (String × String)))
    (versions : List (String × String)) (modpath : String) (classify : ModverCode)
    (hdet : detectDefaultBranch rr heads ≠ "") :
    checkCore moduledir heads (("origin", rr) :: rest) versions modpath classify =
      checkCore moduledir heads (("origin", rr) :: rest') versions modpath classify := by
  have hb : (detectDefaultBranch rr heads != "") = true := by simpa [bne_iff_ne] using hdet
  have hchoose : ∀ l : List (String × List (String × String)),
      chooseDefaultBranch (("origin", rr) :: l) heads = detectDefaultBranch rr heads := by
    intro l
    simp [chooseDefaultBranch, List.lookup, hb]
  simp only [checkCore, checkOk, hchoose]

theorem check_deterministic_witness :
    checkCore "" [("main", "h")] [("origin", [("main", "h")]), ("x", [("dev", "q")])]
        [("v0.1.0", "h")] "example.com/mod" ModverCode.none =
      checkCore "" [("main", "h")] [("origin", [("main", "h")])] [("v0.1.0", "h")]
        "example.com/mod" ModverCode.none :=
  check_deterministic_given_origin "" [("main", "h")] [("main", "h")] [("x", [("dev", "q")])] []
    [("v0.1.0", "h")] "example.com/mod" ModverCode.none (by decide)

end Taggo
